import Mathlib

/-!
Shallow embedding of the ember vectorization pipeline (`ember/__init__.py`).

The pipeline converts line-delimited raw feature records into two flat
binary files per split: a feature matrix of 32-bit floats with shape
(nrows, dim) and a parallel label vector of length nrows.  We model a
float32 file at element granularity as a `List Int` (each element is 4
bytes on disk; the claims under verification only copy values around, so
the numeric carrier type is irrelevant and `Int` keeps everything
decidable).  A raw-feature shard file is a `List String` of its lines;
`json.loads` and the external `PEFeatureExtractor` are black boxes and
enter as parameters (`decode`, `Extractor`).
-/

/-- A decoded raw-feature record (the result of `json.loads` on one input
line).  `label` is the required `"label"` field read by `vectorize`;
`payload` stands for the extractor-specific fields. -/
structure RawFeatures where
  label : Int
  payload : List Int
deriving DecidableEq

/-- The external `PEFeatureExtractor` contract: a fixed output
dimensionality `dim` and `process_raw_features`, mapping a decoded record
to a numeric vector (not guaranteed by the type to have length `dim`;
the numpy row assignment checks that at write time). -/
structure Extractor where
  dim : Nat
  process_raw_features : RawFeatures → List Int

/-- The mutable shared storage backing one split: the feature-matrix file
viewed as rows (`X`, shape nrows × dim) and the label-vector file (`y`,
length nrows). -/
structure Storage where
  X : List (List Int)
  y : List Int
deriving DecidableEq

/-- Errors surfaced by the embedded operations.  `RowIndexOutOfRange` is
numpy's IndexError on an out-of-bounds row assignment, `BroadcastError`
its ValueError on assigning a wrong-length vector to a row,
`ShapeMismatch` its ValueError from `reshape((-1, ndim))` on a
non-divisible size, `IndexError` a plain list indexing failure. -/
inductive Err
  | DecodeError
  | RowIndexOutOfRange
  | BroadcastError
  | ShapeMismatch
  | IndexError
deriving DecidableEq

/-- `raw_feature_iterator(file_paths)`: yield the lines of the given files
in declared order — the concatenation of the per-file line lists. -/
def raw_feature_iterator (files : List (List String)) : List String :=
  files.flatten

/-- `np.memmap(X_path, dtype=np.float32, mode="w+", shape=(nrows, dim))`:
mode `"w+"` creates or overwrites the file at exactly
`nrows * dim * 4` bytes, zero-filled.  Any prior contents at the path
(given here as the flat element list `priorX`, `none` if the file does
not exist) are discarded without error, whatever their size. -/
def memmap_X_wplus (priorX : Option (List Int)) (nrows dim : Nat) :
    Except Err (List (List Int)) :=
  .ok (List.replicate nrows (List.replicate dim 0))

/-- `np.memmap(y_path, dtype=np.float32, mode="w+", shape=nrows)`: same
`"w+"` semantics for the label-vector file (`nrows * 4` bytes). -/
def memmap_y_wplus (priorY : Option (List Int)) (nrows : Nat) :
    Except Err (List Int) :=
  .ok (List.replicate nrows 0)

/-- `vectorize(irow, raw_features_string, X_path, y_path, extractor, nrows)`:
decode one record, compute its feature vector, and write label and vector
at row `irow` of the shared storage.  Mirrors the source order: decode,
extract, then `y[irow] = raw_features["label"]` (numpy bounds-checks the
index against shape `nrows` and raises IndexError when `irow ≥ nrows`,
before any byte is written), then `X[irow] = feature_vector` (numpy
raises ValueError if the vector length differs from `extractor.dim`).
A task error aborts the whole batch, so an errored task's storage is
never the batch result; the `Except` discards it. -/
def vectorize (decode : String → Option RawFeatures) (irow : Nat)
    (raw_features_string : String) (extractor : Extractor) (nrows : Nat)
    (st : Storage) : Except Err Storage :=
  match decode raw_features_string with
  | none => .error .DecodeError
  | some raw_features =>
      let feature_vector := extractor.process_raw_features raw_features
      if irow < nrows then
        let st1 : Storage := { st with y := st.y.set irow raw_features.label }
        if feature_vector.length = extractor.dim then
          .ok { st1 with X := st1.X.set irow feature_vector }
        else
          .error .BroadcastError
      else
        .error .RowIndexOutOfRange

/-- Python's `enumerate` over the record stream: pair each line with its
ordinal row index. -/
def pyEnumerate (lines : List String) : List (Nat × String) :=
  lines.enum

/-- Whether one task of the vectorization pass succeeds.  A task's
success is independent of the storage state: it depends only on its
record decoding, its row index being in bounds, and the extractor
returning a vector of length `dim`. -/
def taskOk (decode : String → Option RawFeatures) (extractor : Extractor)
    (nrows : Nat) (t : Nat × String) : Bool :=
  match decode t.2 with
  | none => false
  | some raw_features =>
      decide (t.1 < nrows) &&
        ((extractor.process_raw_features raw_features).length == extractor.dim)

/-- The storage mutation a successful task performs: set row `t.1` of the
matrix and element `t.1` of the label vector. -/
def applyTask (decode : String → Option RawFeatures) (extractor : Extractor)
    (st : Storage) (t : Nat × String) : Storage :=
  match decode t.2 with
  | none => st
  | some raw_features =>
      { X := st.X.set t.1 (extractor.process_raw_features raw_features),
        y := st.y.set t.1 raw_features.label }

/-- Drain a list of `(row index, raw record)` tasks through `vectorize`,
stopping at the first failing task (a failing task aborts the batch).
The list order is one completion order of the unordered pool. -/
def runTasks (decode : String → Option RawFeatures) (extractor : Extractor)
    (nrows : Nat) : List (Nat × String) → Storage → Except Err Storage
  | [], st => .ok st
  | t :: ts, st =>
      match vectorize decode t.1 t.2 extractor nrows st with
      | .error e => .error e
      | .ok st1 => runTasks decode extractor nrows ts st1

/-- `vectorize_subset(X_path, y_path, raw_feature_paths, extractor, nrows)`:
allocate both output files with mode `"w+"` (discarding any prior
contents at the paths), then drain one `vectorize` task per record of the
concatenated input files, each carrying its ordinal row index. -/
def vectorize_subset (priorX priorY : Option (List Int))
    (decode : String → Option RawFeatures) (raw_feature_files : List (List String))
    (extractor : Extractor) (nrows : Nat) : Except Err Storage := do
  let X ← memmap_X_wplus priorX nrows extractor.dim
  let y ← memmap_y_wplus priorY nrows
  runTasks decode extractor nrows (pyEnumerate (raw_feature_iterator raw_feature_files))
    { X := X, y := y }

/-- One split of `create_vectorized_features(data_dir)`: the counting pass
fixes `nrows` as the total line count of the split's input files, then
`vectorize_subset` runs with that `nrows`. -/
def create_vectorized_features_split (priorX priorY : Option (List Int))
    (decode : String → Option RawFeatures) (raw_feature_files : List (List String))
    (extractor : Extractor) : Except Err Storage :=
  vectorize_subset priorX priorY decode raw_feature_files extractor
    (raw_feature_iterator raw_feature_files).length

/-- `np.memmap(path, dtype=np.float32, mode="r").reshape((-1, ndim))`:
view the flat float32 file as rows of length `ndim`.  numpy infers the
row count only when the element count divides evenly by `ndim` (and
`ndim` is nonzero); otherwise `reshape` raises ValueError, modelled as
`ShapeMismatch`.  In bytes: rowCount = fileSize / (ndim * 4) with
fileSize = 4 * flat.length. -/
def reshape_rows (flat : List Int) (ndim : Nat) : Except Err (List (List Int)) :=
  if ndim ≠ 0 ∧ flat.length % ndim = 0 then
    .ok ((List.range (flat.length / ndim)).map (fun i => (flat.drop (i * ndim)).take ndim))
  else
    .error .ShapeMismatch

/-- The possible results of `read_vectorized_features`: Python's `None`,
a two-element `(X, y)` for one split, or the four-element
`(X_train, y_train, X_test, y_test)`. -/
inductive ReadResult
  | nullResult
  | pair (X : List (List Int)) (y : List Int)
  | quad (X_train : List (List Int)) (y_train : List Int)
      (X_test : List (List Int)) (y_test : List Int)
deriving DecidableEq

/-- `read_vectorized_features(data_dir, subset)`: the four file contents
stand for the files at the four derived paths.  A `subset` that is
neither `None` nor `"train"`/`"test"` returns `None`; `"train"` and
`"test"` return the pair for that split; `None` reads train then test and
returns the four-tuple. -/
def read_vectorized_features (X_train_file y_train_file X_test_file y_test_file : List Int)
    (ndim : Nat) (subset : Option String) : Except Err ReadResult :=
  if subset ≠ none ∧ subset ≠ some "train" ∧ subset ≠ some "test" then
    .ok .nullResult
  else
    match subset with
    | some "train" => do
        let X ← reshape_rows X_train_file ndim
        .ok (.pair X y_train_file)
    | some "test" => do
        let X ← reshape_rows X_test_file ndim
        .ok (.pair X y_test_file)
    | _ => do
        let X1 ← reshape_rows X_train_file ndim
        let X2 ← reshape_rows X_test_file ndim
        .ok (.quad X1 y_train_file X2 y_test_file)

/-- The keys a decoded metadata record may carry.  `other` stands for any
JSON key outside the metadata set (extractor payload fields). -/
inductive JKey
  | sha256
  | appeared
  | label
  | avclass
  | subset
  | other
deriving DecidableEq

/-- The set literal `{"sha256", "appeared", "label", "avclass"}` in
`read_metadata_record`. -/
def metadata_keys : List JKey :=
  [JKey.sha256, JKey.appeared, JKey.label, JKey.avclass]

/-- `read_metadata_record(raw_features_string)`: decode the line and keep
the intersection of its keys with `metadata_keys`.  The record is
modelled by its key set (`decodeKeys` gives the keys of the decoded JSON
object); the claims under verification concern only which columns and
how many rows the metadata table has. -/
def read_metadata_record (decodeKeys : String → List JKey) (raw_features_string : String) :
    List JKey :=
  (decodeKeys raw_features_string).filter (fun k => decide (k ∈ metadata_keys))

/-- The fixed column priority list `all_metadata_keys` of
`create_metadata`. -/
def all_metadata_keys : List JKey :=
  [JKey.sha256, JKey.appeared, JKey.subset, JKey.label, JKey.avclass]

/-- `create_metadata(data_dir)`: read one metadata record per input line
of the train shards then of the test shard, tag each with the `subset`
key (`dict(record, **{"subset": ...})`), pick the ordered column list by
filtering `all_metadata_keys` through the keys of `train_records[0]`
(IndexError when there is no train record), and build the table over
`train_records + test_records`.  Returns (columns, rows), each row being
the key set of its record. -/
def create_metadata (decodeKeys : String → List JKey)
    (train_feature_files test_feature_files : List (List String)) :
    Except Err (List JKey × List (List JKey)) :=
  let train_records :=
    (raw_feature_iterator train_feature_files).map
      (fun s => read_metadata_record decodeKeys s ++ [JKey.subset])
  let test_records :=
    (raw_feature_iterator test_feature_files).map
      (fun s => read_metadata_record decodeKeys s ++ [JKey.subset])
  match train_records with
  | [] => .error .IndexError
  | r0 :: _ =>
      .ok (all_metadata_keys.filter (fun k => decide (k ∈ r0)),
        train_records ++ test_records)

/-- The column list claim C9 describes, written from the claim's words
rather than the source: those of the fixed priority list that are
present anywhere in the data (in any record of either split, with the
`subset` tag counted as present on every record). -/
def claimedMetadataColumns (decodeKeys : String → List JKey)
    (train_feature_files test_feature_files : List (List String)) : List JKey :=
  let records :=
    (raw_feature_iterator train_feature_files ++ raw_feature_iterator test_feature_files).map
      (fun s => read_metadata_record decodeKeys s ++ [JKey.subset])
  all_metadata_keys.filter (fun k => records.any (fun r => decide (k ∈ r)))

/-- A concrete decoder for witness instantiations: the line `"a"` decodes
to a record with label 1, the line `"b"` to a record with label -1. -/
def decodeW : String → Option RawFeatures := fun s =>
  if s = "a" then some { label := 1, payload := [] }
  else if s = "b" then some { label := -1, payload := [] }
  else none

/-- A concrete two-dimensional extractor for witness instantiations. -/
def exW : Extractor where
  dim := 2
  process_raw_features := fun raw_features =>
    [raw_features.label, raw_features.label + 1]

/-- A concrete key decoder for metadata instantiations: the first record
carries keys {sha256, label}, the second additionally avclass. -/
def decodeKeysW : String → List JKey := fun s =>
  if s = "a" then [JKey.sha256, JKey.label]
  else if s = "b" then [JKey.sha256, JKey.label, JKey.avclass]
  else []

/-! ## Helper lemmas about the task fold -/

lemma vectorize_of_taskOk (decode : String → Option RawFeatures) (extractor : Extractor)
    (nrows : Nat) (t : Nat × String) (st : Storage)
    (h : taskOk decode extractor nrows t = true) :
    vectorize decode t.1 t.2 extractor nrows st = .ok (applyTask decode extractor st t) := by
  cases hd : decode t.2 with
  | none => simp [taskOk, hd] at h
  | some raw =>
      simp only [taskOk, hd, Bool.and_eq_true, decide_eq_true_eq, beq_iff_eq] at h
      simp [vectorize, applyTask, hd, h.1, h.2]

lemma taskOk_of_vectorize_ok (decode : String → Option RawFeatures) (extractor : Extractor)
    (nrows : Nat) (t : Nat × String) (st st' : Storage)
    (h : vectorize decode t.1 t.2 extractor nrows st = .ok st') :
    taskOk decode extractor nrows t = true := by
  cases hd : decode t.2 with
  | none => simp [vectorize, hd] at h
  | some raw =>
      by_cases h1 : t.1 < nrows
      · by_cases h2 : (extractor.process_raw_features raw).length = extractor.dim
        · simp [taskOk, hd, h1, h2]
        · simp [vectorize, hd, h1, h2] at h
      · simp [vectorize, hd, h1] at h

lemma runTasks_eq_foldl (decode : String → Option RawFeatures) (extractor : Extractor)
    (nrows : Nat) (ts : List (Nat × String)) (st : Storage)
    (h : ∀ t ∈ ts, taskOk decode extractor nrows t = true) :
    runTasks decode extractor nrows ts st =
      .ok (ts.foldl (applyTask decode extractor) st) := by
  induction ts generalizing st with
  | nil => rfl
  | cons t ts ih =>
      have h1 : taskOk decode extractor nrows t = true := h t (List.mem_cons_self t ts)
      simp only [runTasks, List.foldl_cons,
        vectorize_of_taskOk decode extractor nrows t st h1]
      exact ih _ (fun x hx => h x (List.mem_cons_of_mem _ hx))

lemma taskOk_of_runTasks_ok (decode : String → Option RawFeatures) (extractor : Extractor)
    (nrows : Nat) (ts : List (Nat × String)) (st st' : Storage)
    (h : runTasks decode extractor nrows ts st = .ok st') :
    ∀ t ∈ ts, taskOk decode extractor nrows t = true := by
  induction ts generalizing st with
  | nil => intro t ht; exact absurd ht (List.not_mem_nil t)
  | cons t ts ih =>
      intro x hx
      simp only [runTasks] at h
      cases hv : vectorize decode t.1 t.2 extractor nrows st with
      | error e => rw [hv] at h; exact absurd h (by simp)
      | ok st1 =>
          rw [hv] at h
          rcases List.mem_cons.mp hx with hx1 | hx2
          · subst hx1; exact taskOk_of_vectorize_ok decode extractor nrows x st st1 hv
          · exact ih st1 h x hx2

lemma applyTask_getD_ne (decode : String → Option RawFeatures) (extractor : Extractor)
    (st : Storage) (t : Nat × String) (j : Nat) (hj : j ≠ t.1) :
    (applyTask decode extractor st t).X.getD j [] = st.X.getD j [] ∧
      (applyTask decode extractor st t).y.getD j 0 = st.y.getD j 0 := by
  cases hd : decode t.2 with
  | none => simp [applyTask, hd]
  | some raw =>
      simp [applyTask, hd, List.getD_eq_getElem?_getD,
        List.getElem?_set_ne (Ne.symm hj)]

lemma applyTask_length (decode : String → Option RawFeatures) (extractor : Extractor)
    (st : Storage) (t : Nat × String) :
    (applyTask decode extractor st t).X.length = st.X.length ∧
      (applyTask decode extractor st t).y.length = st.y.length := by
  cases hd : decode t.2 with
  | none => simp [applyTask, hd]
  | some raw => simp [applyTask, hd]

lemma foldl_applyTask_length (decode : String → Option RawFeatures) (extractor : Extractor)
    (ts : List (Nat × String)) (st : Storage) :
    (ts.foldl (applyTask decode extractor) st).X.length = st.X.length ∧
      (ts.foldl (applyTask decode extractor) st).y.length = st.y.length := by
  induction ts generalizing st with
  | nil => exact ⟨rfl, rfl⟩
  | cons t ts ih =>
      simp only [List.foldl_cons]
      refine ⟨?_, ?_⟩
      · rw [(ih (applyTask decode extractor st t)).1,
          (applyTask_length decode extractor st t).1]
      · rw [(ih (applyTask decode extractor st t)).2,
          (applyTask_length decode extractor st t).2]

lemma foldl_applyTask_getD_not_mem (decode : String → Option RawFeatures)
    (extractor : Extractor) (ts : List (Nat × String)) (st : Storage) (i : Nat)
    (hi : i ∉ ts.map Prod.fst) :
    (ts.foldl (applyTask decode extractor) st).X.getD i [] = st.X.getD i [] ∧
      (ts.foldl (applyTask decode extractor) st).y.getD i 0 = st.y.getD i 0 := by
  induction ts generalizing st with
  | nil => exact ⟨rfl, rfl⟩
  | cons t ts ih =>
      simp only [List.map_cons, List.mem_cons, not_or] at hi
      simp only [List.foldl_cons]
      have h1 := applyTask_getD_ne decode extractor st t i hi.1
      have h2 := ih (applyTask decode extractor st t) hi.2
      exact ⟨h2.1.trans h1.1, h2.2.trans h1.2⟩

lemma applyTask_getD_self (decode : String → Option RawFeatures) (extractor : Extractor)
    (st : Storage) (i : Nat) (s : String) (raw : RawFeatures)
    (hd : decode s = some raw) (hX : i < st.X.length) (hy : i < st.y.length) :
    (applyTask decode extractor st (i, s)).X.getD i [] =
        extractor.process_raw_features raw ∧
      (applyTask decode extractor st (i, s)).y.getD i 0 = raw.label := by
  simp [applyTask, hd, List.getD_eq_getElem?_getD, List.getElem?_set_self hX,
    List.getElem?_set_self hy]

lemma foldl_applyTask_getD_mem (decode : String → Option RawFeatures)
    (extractor : Extractor) (ts : List (Nat × String)) (st : Storage)
    (i : Nat) (s : String) (raw : RawFeatures)
    (hnd : (ts.map Prod.fst).Nodup) (hmem : (i, s) ∈ ts)
    (hd : decode s = some raw) (hX : i < st.X.length) (hy : i < st.y.length) :
    (ts.foldl (applyTask decode extractor) st).X.getD i [] =
        extractor.process_raw_features raw ∧
      (ts.foldl (applyTask decode extractor) st).y.getD i 0 = raw.label := by
  induction ts generalizing st with
  | nil => exact absurd hmem (List.not_mem_nil _)
  | cons t ts ih =>
      simp only [List.map_cons, List.nodup_cons] at hnd
      simp only [List.foldl_cons]
      rcases List.mem_cons.mp hmem with h1 | h2
      · subst h1
        have hfr := foldl_applyTask_getD_not_mem decode extractor ts
          (applyTask decode extractor st (i, s)) i hnd.1
        have hset := applyTask_getD_self decode extractor st i s raw hd hX hy
        exact ⟨hfr.1.trans hset.1, hfr.2.trans hset.2⟩
      · exact ih (applyTask decode extractor st t) hnd.2 h2
          (by rw [(applyTask_length decode extractor st t).1]; exact hX)
          (by rw [(applyTask_length decode extractor st t).2]; exact hy)

lemma foldl_perm_of_pairwise_comm {α β : Type} {f : β → α → β} {l₁ l₂ : List α}
    (p : l₁.Perm l₂)
    (h : ∀ x ∈ l₁, ∀ y ∈ l₁, ∀ z, f (f z x) y = f (f z y) x) :
    ∀ b, l₁.foldl f b = l₂.foldl f b := by
  induction p with
  | nil => intro b; rfl
  | cons x p ih =>
      intro b
      simp only [List.foldl_cons]
      exact ih (fun a ha c hc z =>
        h a (List.mem_cons_of_mem _ ha) c (List.mem_cons_of_mem _ hc) z) (f b x)
  | swap x y l =>
      intro b
      simp only [List.foldl_cons]
      rw [h y (by simp) x (by simp) b]
  | trans p₁ p₂ ih₁ ih₂ =>
      intro b
      rw [ih₁ h b]
      exact ih₂ (fun a ha c hc z =>
        h a (p₁.mem_iff.mpr ha) c (p₁.mem_iff.mpr hc) z) b

lemma applyTask_comm (decode : String → Option RawFeatures) (extractor : Extractor)
    (st : Storage) (t₁ t₂ : Nat × String) (hne : t₁.1 ≠ t₂.1) :
    applyTask decode extractor (applyTask decode extractor st t₁) t₂ =
      applyTask decode extractor (applyTask decode extractor st t₂) t₁ := by
  cases h1 : decode t₁.2 with
  | none => simp [applyTask, h1]
  | some r1 =>
      cases h2 : decode t₂.2 with
      | none => simp [applyTask, h1, h2]
      | some r2 =>
          simp only [applyTask, h1, h2]
          exact congrArg₂ Storage.mk
            (List.set_comm _ _ st.X hne) (List.set_comm _ _ st.y hne)

lemma pyEnumerate_fst_nodup (lines : List String) :
    ((pyEnumerate lines).map Prod.fst).Nodup :=
  List.nodup_enum_map_fst lines

lemma mem_pyEnumerate (lines : List String) (i : Nat) (hi : i < lines.length) :
    (i, lines.getD i "") ∈ pyEnumerate lines := by
  rw [pyEnumerate, List.mk_mem_enum_iff_getElem?, List.getElem?_eq_getElem hi,
    List.getD_eq_getElem lines "" hi]

/-! ## Theorems about the vectorization pass -/

/-- C1: after a successful run over a split, for every row index `i` below
the row count (the total line count of the split's input files in
declared order), row `i` of the feature matrix equals the extractor's
output on the decoded `i`-th record and element `i` of the label vector
equals that record's label field. -/
theorem feature_row_matches_record (priorX priorY : Option (List Int))
    (decode : String → Option RawFeatures) (raw_feature_files : List (List String))
    (extractor : Extractor) (st : Storage)
    (h : create_vectorized_features_split priorX priorY decode raw_feature_files extractor
        = .ok st) :
    ∀ i, i < (raw_feature_iterator raw_feature_files).length →
      ∃ raw, decode ((raw_feature_iterator raw_feature_files).getD i "") = some raw ∧
        st.X.getD i [] = extractor.process_raw_features raw ∧
        st.y.getD i 0 = raw.label := by
  intro i hi
  have hrun : runTasks decode extractor (raw_feature_iterator raw_feature_files).length
      (pyEnumerate (raw_feature_iterator raw_feature_files))
      { X := List.replicate (raw_feature_iterator raw_feature_files).length
          (List.replicate extractor.dim 0),
        y := List.replicate (raw_feature_iterator raw_feature_files).length 0 }
      = .ok st := h
  have hok := taskOk_of_runTasks_ok _ _ _ _ _ _ hrun
  have hfold := runTasks_eq_foldl decode extractor
    (raw_feature_iterator raw_feature_files).length
    (pyEnumerate (raw_feature_iterator raw_feature_files))
    { X := List.replicate (raw_feature_iterator raw_feature_files).length
        (List.replicate extractor.dim 0),
      y := List.replicate (raw_feature_iterator raw_feature_files).length 0 } hok
  rw [hrun] at hfold
  have hst := Except.ok.inj hfold
  have hmem := mem_pyEnumerate (raw_feature_iterator raw_feature_files) i hi
  have htask := hok _ hmem
  cases hd : decode ((raw_feature_iterator raw_feature_files).getD i "") with
  | none =>
      rw [List.getD_eq_getElem?_getD] at hd
      simp [taskOk, hd] at htask
  | some raw =>
      refine ⟨raw, rfl, ?_⟩
      rw [hst]
      exact foldl_applyTask_getD_mem decode extractor _ _ i _ raw
        (pyEnumerate_fst_nodup _) hmem hd
        (by simpa using hi) (by simpa using hi)

/-- C2: a vectorization task whose assigned row index is at or beyond the
allocated row count fails with the explicit bounds-checked
`RowIndexOutOfRange` error (numpy's IndexError on `y[irow]`), instead of
writing outside the allocated storage; no storage mutation escapes the
failed task. -/
theorem out_of_range_task_fails (decode : String → Option RawFeatures) (irow : Nat)
    (raw_features_string : String) (extractor : Extractor) (nrows : Nat)
    (st : Storage) (raw : RawFeatures)
    (hd : decode raw_features_string = some raw) (hge : nrows ≤ irow) :
    vectorize decode irow raw_features_string extractor nrows st =
      .error .RowIndexOutOfRange := by
  simp [vectorize, hd, Nat.not_lt.mpr hge]

/-- C3: for the fixed task-to-row-index assignment produced by enumerating
the split's concatenated records, draining the tasks in any completion
order (any permutation of the task list) yields exactly the storage that
`vectorize_subset` produces, provided every task succeeds. -/
theorem completion_order_independent (priorX priorY : Option (List Int))
    (decode : String → Option RawFeatures) (raw_feature_files : List (List String))
    (extractor : Extractor) (nrows : Nat) (tasks2 : List (Nat × String))
    (hperm : tasks2.Perm (pyEnumerate (raw_feature_iterator raw_feature_files)))
    (hok : ∀ t ∈ pyEnumerate (raw_feature_iterator raw_feature_files),
      taskOk decode extractor nrows t = true) :
    runTasks decode extractor nrows tasks2
        { X := List.replicate nrows (List.replicate extractor.dim 0),
          y := List.replicate nrows 0 }
      = vectorize_subset priorX priorY decode raw_feature_files extractor nrows := by
  have hok2 : ∀ t ∈ tasks2, taskOk decode extractor nrows t = true :=
    fun t ht => hok t (hperm.mem_iff.mp ht)
  have hnd : (tasks2.map Prod.fst).Nodup :=
    ((hperm.map Prod.fst).nodup_iff).mpr (pyEnumerate_fst_nodup _)
  have hcomm : ∀ x ∈ tasks2, ∀ y ∈ tasks2, ∀ z,
      applyTask decode extractor (applyTask decode extractor z x) y =
        applyTask decode extractor (applyTask decode extractor z y) x := by
    intro x hx y hy z
    by_cases hxy : x = y
    · subst hxy; rfl
    · exact applyTask_comm decode extractor z x y
        (fun hfst => hxy (List.inj_on_of_nodup_map hnd hx hy hfst))
  have hL := runTasks_eq_foldl decode extractor nrows tasks2
    { X := List.replicate nrows (List.replicate extractor.dim 0),
      y := List.replicate nrows 0 } hok2
  have hR := runTasks_eq_foldl decode extractor nrows
    (pyEnumerate (raw_feature_iterator raw_feature_files))
    { X := List.replicate nrows (List.replicate extractor.dim 0),
      y := List.replicate nrows 0 } hok
  have hfold := foldl_perm_of_pairwise_comm hperm hcomm
    { X := List.replicate nrows (List.replicate extractor.dim 0),
      y := List.replicate nrows 0 }
  show _ = vectorize_subset priorX priorY decode raw_feature_files extractor nrows
  have hsub : vectorize_subset priorX priorY decode raw_feature_files extractor nrows =
      runTasks decode extractor nrows
        (pyEnumerate (raw_feature_iterator raw_feature_files))
        { X := List.replicate nrows (List.replicate extractor.dim 0),
          y := List.replicate nrows 0 } := rfl
  rw [hsub, hL, hR, hfold]

/-- C7: rerunning `vectorize_subset` over the same inputs is idempotent:
whatever the first successful run wrote at the output paths is exactly
reproduced when the run is repeated with those outputs as the now-present
prior file contents, because mode `"w+"` allocation discards prior
contents and the task stream is deterministic in the inputs. -/
theorem vectorize_subset_idempotent (priorX priorY : Option (List Int))
    (decode : String → Option RawFeatures) (raw_feature_files : List (List String))
    (extractor : Extractor) (nrows : Nat) (st : Storage)
    (h : vectorize_subset priorX priorY decode raw_feature_files extractor nrows = .ok st) :
    vectorize_subset (some st.X.flatten) (some st.y) decode raw_feature_files extractor nrows
      = .ok st := h

/-- C8: a successful `vectorize` task for row index `irow` mutates exactly
row `irow` of the feature matrix (to the extractor's vector) and element
`irow` of the label vector (to the record's label); every other row and
label is unchanged. -/
theorem vectorize_touches_only_its_row (decode : String → Option RawFeatures)
    (irow : Nat) (raw_features_string : String) (extractor : Extractor)
    (nrows : Nat) (st st' : Storage)
    (h : vectorize decode irow raw_features_string extractor nrows st = .ok st')
    (hX : st.X.length = nrows) (hy : st.y.length = nrows) :
    (∀ j, j ≠ irow → st'.X.getD j [] = st.X.getD j [] ∧
        st'.y.getD j 0 = st.y.getD j 0) ∧
      ∃ raw, decode raw_features_string = some raw ∧
        st'.X.getD irow [] = extractor.process_raw_features raw ∧
        st'.y.getD irow 0 = raw.label := by
  cases hd : decode raw_features_string with
  | none => simp [vectorize, hd] at h
  | some raw =>
      by_cases h1 : irow < nrows
      · by_cases h2 : (extractor.process_raw_features raw).length = extractor.dim
        · simp only [vectorize, hd, h1, if_true, h2, if_pos] at h
          have hst : st' = Storage.mk (st.X.set irow (extractor.process_raw_features raw))
              (st.y.set irow raw.label) := (Except.ok.inj h).symm
          subst hst
          refine ⟨?_, raw, rfl, ?_, ?_⟩
          · intro j hj
            constructor
            · simp [List.getD_eq_getElem?_getD, List.getElem?_set_ne (Ne.symm hj)]
            · simp [List.getD_eq_getElem?_getD, List.getElem?_set_ne (Ne.symm hj)]
          · simp [List.getD_eq_getElem?_getD,
              List.getElem?_set_self (by rw [hX]; exact h1)]
          · simp [List.getD_eq_getElem?_getD,
              List.getElem?_set_self (by rw [hy]; exact h1)]
        · simp [vectorize, hd, h1, h2] at h
      · simp [vectorize, hd, h1] at h

/-! ## Theorems about the reader -/

lemma flatten_chunks (ndim : Nat) :
    ∀ (k : Nat) (flat : List Int), flat.length = k * ndim →
      ((List.range k).map (fun i => (flat.drop (i * ndim)).take ndim)).flatten = flat := by
  intro k
  induction k with
  | zero =>
      intro flat h
      simp only [Nat.zero_mul] at h
      rw [List.eq_nil_of_length_eq_zero h]
      rfl
  | succ k ih =>
      intro flat h
      rw [List.range_succ_eq_map, List.map_cons, List.map_map]
      have hrows : (List.range k).map ((fun i => (flat.drop (i * ndim)).take ndim) ∘ Nat.succ)
          = (List.range k).map (fun i => ((flat.drop ndim).drop (i * ndim)).take ndim) := by
        refine List.map_congr_left (fun i _ => ?_)
        simp only [Function.comp_apply, List.drop_drop, Nat.succ_mul, Nat.add_comm]
      have hlen : (flat.drop ndim).length = k * ndim := by
        rw [List.length_drop, h, Nat.succ_mul]
        omega
      rw [hrows, List.flatten_cons, ih (flat.drop ndim) hlen]
      simp [List.take_append_drop]

/-- C6: the reader derives the row count from the file size — at float32
element granularity, rowCount = elementCount / ndim, i.e. in bytes
fileSize / (ndim * 4) — without dropping or padding any element
(the rows flatten back to the whole file and each has length `ndim`);
and when the size does not divide evenly by the row stride,
`read_vectorized_features` fails with `ShapeMismatch` instead of
returning a reshaped view. -/
theorem read_rowcount_from_size_or_shape_mismatch
    (X_train_file y_train_file X_test_file y_test_file : List Int) (ndim : Nat) :
    (∀ rows, reshape_rows X_train_file ndim = .ok rows →
        rows.length = X_train_file.length / ndim ∧
        rows.flatten = X_train_file ∧
        ∀ r ∈ rows, r.length = ndim) ∧
    (¬(ndim ≠ 0 ∧ X_train_file.length % ndim = 0) →
        read_vectorized_features X_train_file y_train_file X_test_file y_test_file ndim
            (some "train") = .error .ShapeMismatch ∧
        read_vectorized_features X_train_file y_train_file X_test_file y_test_file ndim
            none = .error .ShapeMismatch) ∧
    (¬(ndim ≠ 0 ∧ X_test_file.length % ndim = 0) →
        read_vectorized_features X_train_file y_train_file X_test_file y_test_file ndim
            (some "test") = .error .ShapeMismatch) := by
  refine ⟨?_, ?_, ?_⟩
  · intro rows hok
    by_cases hc : ndim ≠ 0 ∧ X_train_file.length % ndim = 0
    · rw [reshape_rows, if_pos hc] at hok
      have hrows := (Except.ok.inj hok).symm
      have hmul : X_train_file.length = (X_train_file.length / ndim) * ndim :=
        (Nat.div_mul_cancel (Nat.dvd_of_mod_eq_zero hc.2)).symm
      subst hrows
      refine ⟨by simp, flatten_chunks ndim _ _ hmul, ?_⟩
      intro r hr
      rw [List.mem_map] at hr
      obtain ⟨i, hi, hr⟩ := hr
      rw [List.mem_range] at hi
      have hge : i * ndim + ndim ≤ X_train_file.length := by
        rw [hmul]
        have : i + 1 ≤ X_train_file.length / ndim := hi
        calc i * ndim + ndim = (i + 1) * ndim := by ring
          _ ≤ (X_train_file.length / ndim) * ndim := Nat.mul_le_mul_right ndim this
      rw [← hr, List.length_take, List.length_drop]
      omega
    · rw [reshape_rows, if_neg hc] at hok
      exact absurd hok (by simp)
  · intro hc
    constructor
    · simp [read_vectorized_features, reshape_rows, if_neg hc]
      rfl
    · simp [read_vectorized_features, reshape_rows, if_neg hc]
      rfl
  · intro hc
    simp [read_vectorized_features, reshape_rows, if_neg hc]
    rfl

/-- C10 (amended form is the claim itself): the arity of the reader's
result depends on the subset selector — `"train"` and `"test"` yield the
two-element pair for that split, `None` yields the four-element
train/test tuple. -/
theorem read_result_arity_by_subset
    (X_train_file y_train_file X_test_file y_test_file : List Int) (ndim : Nat)
    (X1 X2 : List (List Int))
    (h1 : reshape_rows X_train_file ndim = .ok X1)
    (h2 : reshape_rows X_test_file ndim = .ok X2) :
    read_vectorized_features X_train_file y_train_file X_test_file y_test_file ndim
        (some "train") = .ok (.pair X1 y_train_file) ∧
    read_vectorized_features X_train_file y_train_file X_test_file y_test_file ndim
        (some "test") = .ok (.pair X2 y_test_file) ∧
    read_vectorized_features X_train_file y_train_file X_test_file y_test_file ndim
        none = .ok (.quad X1 y_train_file X2 y_test_file) := by
  refine ⟨?_, ?_, ?_⟩ <;> simp [read_vectorized_features, h1, h2] <;> rfl

/-- C4 amended: for a subset argument outside {None, "train", "test"},
`read_vectorized_features` silently returns `None` (the null result); it
does not raise any error and does not touch the storage files. -/
theorem read_invalid_subset_returns_null
    (X_train_file y_train_file X_test_file y_test_file : List Int) (ndim : Nat)
    (subset : Option String) (h1 : subset ≠ none) (h2 : subset ≠ some "train")
    (h3 : subset ≠ some "test") :
    read_vectorized_features X_train_file y_train_file X_test_file y_test_file ndim
        subset = .ok .nullResult := by
  have hcond : subset ≠ none ∧ subset ≠ some "train" ∧ subset ≠ some "test" :=
    ⟨h1, h2, h3⟩
  rw [read_vectorized_features.eq_def, if_pos hcond]

/-- C4 counterexample: at the concrete invalid subset `"validation"`, the
reader returns the null result and no explicit error at all — refuting
the claim that an invalid split selector fails with an `InvalidArgument`
error. -/
theorem read_invalid_subset_no_error :
    read_vectorized_features [0] [0] [0] [0] 1 (some "validation")
        = .ok ReadResult.nullResult ∧
      ¬∃ e, read_vectorized_features [0] [0] [0] [0] 1 (some "validation")
        = .error e := by
  have h0 : read_vectorized_features [0] [0] [0] [0] 1 (some "validation")
      = .ok ReadResult.nullResult := rfl
  refine ⟨h0, fun hc => ?_⟩
  obtain ⟨e, he⟩ := hc
  rw [h0] at he
  exact Except.noConfusion he

/-! ## Theorems about storage allocation -/

/-- C5 amended: storage allocation with numpy mode `"w+"` never fails on a
size mismatch — whatever data the target path already holds (any prior,
of any size, or no file at all), allocation succeeds, silently replaces
it, and yields zeroed storage of exactly the required size (`nrows` rows
of `dim` elements, i.e. `nrows * dim * 4` bytes, and `nrows` labels,
i.e. `nrows * 4` bytes). -/
theorem allocation_overwrites_any_prior (priorX priorY priorX2 priorY2 : Option (List Int))
    (nrows dim : Nat) :
    memmap_X_wplus priorX nrows dim = memmap_X_wplus priorX2 nrows dim ∧
    memmap_y_wplus priorY nrows = memmap_y_wplus priorY2 nrows ∧
    (∀ X, memmap_X_wplus priorX nrows dim = .ok X →
        X.length = nrows ∧ ∀ r ∈ X, r.length = dim) ∧
    (∀ y, memmap_y_wplus priorY nrows = .ok y → y.length = nrows) := by
  refine ⟨rfl, rfl, ?_, ?_⟩
  · intro X hX
    have h := Except.ok.inj hX
    subst h
    constructor
    · exact List.length_replicate nrows _
    · intro r hr
      rw [List.eq_of_mem_replicate hr]
      exact List.length_replicate dim 0
  · intro y hy
    have h := Except.ok.inj hy
    subst h
    exact List.length_replicate nrows 0

/-- C5 counterexample: a prior matrix file of 3 elements (12 bytes) at a
path that a 2-row, 4-column allocation (32 bytes required) reuses:
allocation succeeds with fresh zeroed storage and raises no error at
all, refuting the claim that allocation fails explicitly when the path
already holds data of a different size. -/
theorem allocation_mismatched_prior_no_error :
    memmap_X_wplus (some [1, 2, 3]) 2 4 = .ok [[0, 0, 0, 0], [0, 0, 0, 0]] ∧
      [1, 2, 3].length * 4 ≠ 2 * 4 * 4 ∧
      ¬∃ e, memmap_X_wplus (some [1, 2, 3]) 2 4 = .error e := by
  refine ⟨rfl, by decide, fun hc => ?_⟩
  obtain ⟨e, he⟩ := hc
  exact Except.noConfusion he

/-! ## Theorems about the metadata table -/

/-- C9 amended: when `create_metadata` succeeds, the table has one row per
input record across both splits, and its columns are exactly those of
the fixed priority list {sha256, appeared, subset, label, avclass} that
are present in the FIRST train record (with the always-added `subset`
tag among them), in that fixed order — not those present anywhere in
the data. -/
theorem create_metadata_rows_and_columns (decodeKeys : String → List JKey)
    (train_feature_files test_feature_files : List (List String))
    (cols : List JKey) (rows : List (List JKey))
    (h : create_metadata decodeKeys train_feature_files test_feature_files
        = .ok (cols, rows)) :
    rows.length = (raw_feature_iterator train_feature_files).length +
        (raw_feature_iterator test_feature_files).length ∧
      cols.Sublist all_metadata_keys ∧
      JKey.subset ∈ cols ∧
      ∀ r0, rows.head? = some r0 →
        ∀ k, k ∈ cols ↔ k ∈ all_metadata_keys ∧ k ∈ r0 := by
  cases hls : raw_feature_iterator train_feature_files with
  | nil =>
      rw [create_metadata, hls] at h
      exact absurd h (by simp)
  | cons l0 ls =>
      rw [create_metadata, hls] at h
      simp only [List.map_cons] at h
      have h2 := Except.ok.inj h
      have hcols := congrArg Prod.fst h2
      have hrows := congrArg Prod.snd h2
      simp only at hcols hrows
      refine ⟨?_, ?_, ?_, ?_⟩
      · rw [← hrows]
        simp
        omega
      · rw [← hcols]
        exact List.filter_sublist _
      · rw [← hcols]
        simp [all_metadata_keys]
      · intro r0 hr0 k
        rw [← hrows] at hr0
        simp only [List.cons_append, List.head?_cons, Option.some.injEq] at hr0
        rw [← hcols, ← hr0]
        simp [List.mem_filter]

/-- C9 counterexample: with two train records of which only the second
carries `avclass`, `create_metadata` omits the `avclass` column even
though it is present in the data — the columns are chosen from the first
train record alone, refuting the claim's "present in the data". -/
theorem create_metadata_ignores_later_records :
    create_metadata decodeKeysW [["a", "b"]] [[]] =
      .ok ([JKey.sha256, JKey.subset, JKey.label],
        [[JKey.sha256, JKey.label, JKey.subset],
          [JKey.sha256, JKey.label, JKey.avclass, JKey.subset]]) ∧
      claimedMetadataColumns decodeKeysW [["a", "b"]] [[]] =
        [JKey.sha256, JKey.subset, JKey.label, JKey.avclass] ∧
      JKey.avclass ∉ [JKey.sha256, JKey.subset, JKey.label] :=
  ⟨rfl, rfl, by decide⟩

/-! ## Witness instantiations -/

theorem feature_row_matches_record_witness :
    ∃ raw, decodeW ((raw_feature_iterator [["a"], ["b"]]).getD 0 "") = some raw ∧
      (Storage.mk [[1, 2], [-1, 0]] [1, -1]).X.getD 0 [] = exW.process_raw_features raw ∧
      (Storage.mk [[1, 2], [-1, 0]] [1, -1]).y.getD 0 0 = raw.label :=
  feature_row_matches_record none none decodeW [["a"], ["b"]] exW
    (Storage.mk [[1, 2], [-1, 0]] [1, -1]) rfl 0 (by decide)

theorem out_of_range_task_fails_witness :
    vectorize decodeW 5 "a" exW 2 (Storage.mk [[0, 0], [0, 0]] [0, 0])
      = .error .RowIndexOutOfRange :=
  out_of_range_task_fails decodeW 5 "a" exW 2 (Storage.mk [[0, 0], [0, 0]] [0, 0])
    { label := 1, payload := [] } rfl (by decide)

theorem completion_order_independent_witness :
    runTasks decodeW exW 2 [(1, "b"), (0, "a")]
        { X := List.replicate 2 (List.replicate 2 0), y := List.replicate 2 0 }
      = vectorize_subset none none decodeW [["a"], ["b"]] exW 2 :=
  completion_order_independent none none decodeW [["a"], ["b"]] exW 2
    [(1, "b"), (0, "a")] (by decide) (by decide)

theorem read_invalid_subset_returns_null_witness :
    read_vectorized_features [0] [0] [0] [0] 1 (some "x") = .ok .nullResult :=
  read_invalid_subset_returns_null [0] [0] [0] [0] 1 (some "x")
    (by decide) (by decide) (by decide)

theorem allocation_overwrites_any_prior_witness :
    memmap_X_wplus (some [5]) 1 2 = memmap_X_wplus none 1 2 ∧
      ([[(0 : Int), 0]].length = 1 ∧ ∀ r ∈ [[(0 : Int), 0]], r.length = 2) :=
  ⟨(allocation_overwrites_any_prior (some [5]) (some [6]) none none 1 2).1,
    (allocation_overwrites_any_prior (some [5]) (some [6]) none none 1 2).2.2.1
      [[0, 0]] rfl⟩

theorem read_rowcount_from_size_or_shape_mismatch_witness :
    ([[(2 : Int), 2]].length = [(2 : Int), 2].length / 2 ∧
        [[(2 : Int), 2]].flatten = [(2 : Int), 2] ∧
        ∀ r ∈ [[(2 : Int), 2]], r.length = 2) ∧
      read_vectorized_features [1, 2, 3] [7] [9] [8] 2 (some "train")
        = .error .ShapeMismatch :=
  ⟨(read_rowcount_from_size_or_shape_mismatch [2, 2] [7] [9] [8] 2).1 [[2, 2]] rfl,
    ((read_rowcount_from_size_or_shape_mismatch [1, 2, 3] [7] [9] [8] 2).2.1
      (by decide)).1⟩

theorem vectorize_subset_idempotent_witness :
    vectorize_subset (some (Storage.mk [[1, 2], [-1, 0]] [1, -1]).X.flatten)
        (some (Storage.mk [[1, 2], [-1, 0]] [1, -1]).y) decodeW [["a"], ["b"]] exW 2
      = .ok (Storage.mk [[1, 2], [-1, 0]] [1, -1]) :=
  vectorize_subset_idempotent none none decodeW [["a"], ["b"]] exW 2
    (Storage.mk [[1, 2], [-1, 0]] [1, -1]) rfl

theorem vectorize_touches_only_its_row_witness :
    (Storage.mk [[1, 2], [0, 0]] [1, 0]).X.getD 1 []
        = (Storage.mk [[0, 0], [0, 0]] [0, 0]).X.getD 1 [] ∧
      (Storage.mk [[1, 2], [0, 0]] [1, 0]).y.getD 1 0
        = (Storage.mk [[0, 0], [0, 0]] [0, 0]).y.getD 1 0 :=
  (vectorize_touches_only_its_row decodeW 0 "a" exW 2
      (Storage.mk [[0, 0], [0, 0]] [0, 0]) (Storage.mk [[1, 2], [0, 0]] [1, 0])
      rfl rfl rfl).1 1 (by decide)

theorem create_metadata_rows_and_columns_witness :
    [[JKey.sha256, JKey.label, JKey.subset],
        [JKey.sha256, JKey.label, JKey.avclass, JKey.subset]].length
        = (raw_feature_iterator [["a", "b"]]).length + (raw_feature_iterator [[]]).length ∧
      [JKey.sha256, JKey.subset, JKey.label].Sublist all_metadata_keys ∧
      JKey.subset ∈ [JKey.sha256, JKey.subset, JKey.label] ∧
      ∀ r0, [[JKey.sha256, JKey.label, JKey.subset],
          [JKey.sha256, JKey.label, JKey.avclass, JKey.subset]].head? = some r0 →
        ∀ k, k ∈ [JKey.sha256, JKey.subset, JKey.label] ↔
          k ∈ all_metadata_keys ∧ k ∈ r0 :=
  create_metadata_rows_and_columns decodeKeysW [["a", "b"]] [[]]
    [JKey.sha256, JKey.subset, JKey.label]
    [[JKey.sha256, JKey.label, JKey.subset],
      [JKey.sha256, JKey.label, JKey.avclass, JKey.subset]] rfl

theorem read_result_arity_by_subset_witness :
    read_vectorized_features [1, 2] [7] [3, 4] [8] 2 (some "train")
        = .ok (.pair [[1, 2]] [7]) ∧
      read_vectorized_features [1, 2] [7] [3, 4] [8] 2 (some "test")
        = .ok (.pair [[3, 4]] [8]) ∧
      read_vectorized_features [1, 2] [7] [3, 4] [8] 2 none
        = .ok (.quad [[1, 2]] [7] [[3, 4]] [8]) :=
  read_result_arity_by_subset [1, 2] [7] [3, 4] [8] 2 [[1, 2]] [[3, 4]] rfl rfl
